import Mathlib

set_option maxHeartbeats 1000000
set_option maxRecDepth 8192

namespace NayukiAdmin

/-!
Shallow embedding of the pending-changes / batch-commit core of the
NayukiBlog admin console.

Sources embedded:
* `src/stores/pendingChanges.ts` — the pending-changes queue
  (`addChange`, `removeChange`, `removeChangeByPath`, `clearChanges`).
* `src/components/common/CommitModal.vue` — the `commitChanges` flow.
* `src/api/github.ts` — `saveFile` / `getFileContent` transport
  encoding (UTF-8 + base64) and request construction.
* `src/stores/auth.ts` — `fetchUser` / `logout`.
-/

/-- `ChangeType` from pendingChanges.ts: `"create" | "update" | "delete"`. -/
inductive ChangeType where
  | create
  | update
  | delete
deriving DecidableEq, Repr

/-- `PendingChange` from pendingChanges.ts.  Optional TS fields
(`content?`, `sha?`) become `Option String`; `timestamp : number`
(a `Date.now()` value) becomes `Nat`. -/
structure PendingChange where
  id : String
  path : String
  type : ChangeType
  content : Option String
  sha : Option String
  description : String
  timestamp : Nat
deriving DecidableEq, Repr

/-- The argument of `addChange`: `Omit<PendingChange, "id" | "timestamp">`. -/
structure ChangeInput where
  path : String
  type : ChangeType
  content : Option String
  sha : Option String
  description : String
deriving DecidableEq, Repr

/-- The `newChange` record built inside `addChange` (pendingChanges.ts
lines 35–39): the input plus `id = path + "-" + Date.now()` and
`timestamp = Date.now()`.  The current clock value is passed in as `now`. -/
def mkNewChange (c : ChangeInput) (now : Nat) : PendingChange :=
  { id := c.path ++ "-" ++ toString now
    path := c.path
    type := c.type
    content := c.content
    sha := c.sha
    description := c.description
    timestamp := now }

/-- `addChange` from pendingChanges.ts (lines 29–60).  The TS code finds
the first index whose `path` equals the new change's path
(`findIndex`); if none exists it pushes the new entry at the end; if one
exists it either removes it (`splice`) when the existing kind is
`create` and the new kind is `delete`, or replaces it in place, keeping
kind `create` when the existing kind is `create` and the new kind is
`update`.  The recursion below walks to the first matching entry and
performs exactly that case split. -/
def addChange : List PendingChange → ChangeInput → Nat → List PendingChange
  | [], c, now => [mkNewChange c now]
  | e :: rest, c, now =>
    if e.path = c.path then
      if e.type = ChangeType.create ∧ c.type = ChangeType.delete then
        rest
      else if e.type = ChangeType.create ∧ c.type = ChangeType.update then
        { mkNewChange c now with type := ChangeType.create } :: rest
      else
        mkNewChange c now :: rest
    else
      e :: addChange rest c now

/-- `removeChange` from pendingChanges.ts (lines 63–68): remove the first
entry whose `id` matches, no-op otherwise. -/
def removeChange : List PendingChange → String → List PendingChange
  | [], _ => []
  | e :: rest, i => if e.id = i then rest else e :: removeChange rest i

/-- `removeChangeByPath` from pendingChanges.ts (lines 71–76): remove the
first entry whose `path` matches, no-op otherwise. -/
def removeChangeByPath : List PendingChange → String → List PendingChange
  | [], _ => []
  | e :: rest, p => if e.path = p then rest else e :: removeChangeByPath rest p

/-- `clearChanges` from pendingChanges.ts (lines 79–81). -/
def clearChanges (_changes : List PendingChange) : List PendingChange := []

/-- One mutation of the queue: the four store actions. -/
inductive QueueOp where
  | record (c : ChangeInput) (now : Nat)
  | remove (i : String)
  | removeByPath (p : String)
  | clear

/-- Apply one store action to the queue. -/
def applyOp (changes : List PendingChange) : QueueOp → List PendingChange
  | QueueOp.record c now => addChange changes c now
  | QueueOp.remove i => removeChange changes i
  | QueueOp.removeByPath p => removeChangeByPath changes p
  | QueueOp.clear => clearChanges changes

/-- Apply a sequence of store actions, oldest first. -/
def applyOps (changes : List PendingChange) (ops : List QueueOp) : List PendingChange :=
  ops.foldl applyOp changes

/-- Number of queued entries whose `path` equals `p`. -/
def pathCount (p : String) (cs : List PendingChange) : Nat :=
  cs.countP (fun c => c.path == p)

/-- All queued paths are pairwise distinct. -/
def PathsDistinct (cs : List PendingChange) : Prop :=
  cs.Pairwise (fun a b => a.path ≠ b.path)

/-- Every entry of `addChange cs c now` either targets the new change's
path or was already in `cs`. -/
theorem mem_addChange (cs : List PendingChange) (c : ChangeInput) (now : Nat)
    (x : PendingChange) (hx : x ∈ addChange cs c now) : x.path = c.path ∨ x ∈ cs := by
  induction cs with
  | nil =>
    simp only [addChange, List.mem_singleton] at hx
    subst hx
    left
    rfl
  | cons e rest ih =>
    simp only [addChange] at hx
    by_cases h1 : e.path = c.path
    · rw [if_pos h1] at hx
      by_cases h2 : e.type = ChangeType.create ∧ c.type = ChangeType.delete
      · rw [if_pos h2] at hx
        right
        exact List.mem_cons_of_mem _ hx
      · rw [if_neg h2] at hx
        by_cases h3 : e.type = ChangeType.create ∧ c.type = ChangeType.update
        · rw [if_pos h3] at hx
          rcases List.mem_cons.mp hx with h | h
          · left
            rw [h]
            rfl
          · right
            exact List.mem_cons_of_mem _ h
        · rw [if_neg h3] at hx
          rcases List.mem_cons.mp hx with h | h
          · left
            rw [h]
            rfl
          · right
            exact List.mem_cons_of_mem _ h
    · rw [if_neg h1] at hx
      rcases List.mem_cons.mp hx with h | h
      · right
        rw [h]
        exact List.mem_cons_self _ _
      · rcases ih h with h' | h'
        · left
          exact h'
        · right
          exact List.mem_cons_of_mem _ h'

/-- `addChange` preserves distinctness of queued paths. -/
theorem addChange_pathsDistinct (cs : List PendingChange) (c : ChangeInput) (now : Nat)
    (h : PathsDistinct cs) : PathsDistinct (addChange cs c now) := by
  induction cs with
  | nil =>
    simp [addChange, PathsDistinct]
  | cons e rest ih =>
    rcases List.pairwise_cons.mp h with ⟨hhead, htail⟩
    simp only [addChange]
    by_cases h1 : e.path = c.path
    · rw [if_pos h1]
      by_cases h2 : e.type = ChangeType.create ∧ c.type = ChangeType.delete
      · rw [if_pos h2]
        exact htail
      · rw [if_neg h2]
        by_cases h3 : e.type = ChangeType.create ∧ c.type = ChangeType.update
        · rw [if_pos h3]
          refine List.pairwise_cons.mpr ⟨?_, htail⟩
          intro b hb
          show c.path ≠ b.path
          rw [← h1]
          exact hhead b hb
        · rw [if_neg h3]
          refine List.pairwise_cons.mpr ⟨?_, htail⟩
          intro b hb
          show c.path ≠ b.path
          rw [← h1]
          exact hhead b hb
    · rw [if_neg h1]
      refine List.pairwise_cons.mpr ⟨?_, ih htail⟩
      intro b hb
      rcases mem_addChange rest c now b hb with hb' | hb'
      · rw [hb']
        exact h1
      · exact hhead b hb'

/-- `removeChange` yields a sublist of the queue. -/
theorem removeChange_sublist (cs : List PendingChange) (i : String) :
    List.Sublist (removeChange cs i) cs := by
  induction cs with
  | nil =>
    simp [removeChange]
  | cons e rest ih =>
    simp only [removeChange]
    by_cases h : e.id = i
    · rw [if_pos h]
      exact List.sublist_cons_self e rest
    · rw [if_neg h]
      exact List.Sublist.cons₂ e ih

/-- `removeChangeByPath` yields a sublist of the queue. -/
theorem removeChangeByPath_sublist (cs : List PendingChange) (p : String) :
    List.Sublist (removeChangeByPath cs p) cs := by
  induction cs with
  | nil =>
    simp [removeChangeByPath]
  | cons e rest ih =>
    simp only [removeChangeByPath]
    by_cases h : e.path = p
    · rw [if_pos h]
      exact List.sublist_cons_self e rest
    · rw [if_neg h]
      exact List.Sublist.cons₂ e ih

/-- Every store action preserves distinctness of queued paths. -/
theorem applyOp_pathsDistinct (cs : List PendingChange) (op : QueueOp)
    (h : PathsDistinct cs) : PathsDistinct (applyOp cs op) := by
  cases op with
  | record c now => exact addChange_pathsDistinct cs c now h
  | remove i => exact List.Pairwise.sublist (removeChange_sublist cs i) h
  | removeByPath p => exact List.Pairwise.sublist (removeChangeByPath_sublist cs p) h
  | clear => simp [applyOp, clearChanges, PathsDistinct]

/-- Any sequence of store actions preserves distinctness of queued paths. -/
theorem applyOps_pathsDistinct (ops : List QueueOp) :
    ∀ cs : List PendingChange, PathsDistinct cs → PathsDistinct (applyOps cs ops) := by
  induction ops with
  | nil =>
    intro cs h
    exact h
  | cons op rest ih =>
    intro cs h
    exact ih (applyOp cs op) (applyOp_pathsDistinct cs op h)

/-- A queue with pairwise-distinct paths has at most one entry per path. -/
theorem pathCount_le_one (cs : List PendingChange) (h : PathsDistinct cs) (p : String) :
    pathCount p cs ≤ 1 := by
  induction cs with
  | nil =>
    simp [pathCount]
  | cons e rest ih =>
    rcases List.pairwise_cons.mp h with ⟨hhead, htail⟩
    by_cases hp : e.path = p
    · have hz : pathCount p rest = 0 := by
        rw [pathCount, List.countP_eq_zero]
        intro b hb
        simp only [beq_iff_eq]
        intro hbp
        exact hhead b hb (hp.trans hbp.symm)
      rw [pathCount, List.countP_cons_of_pos]
      · rw [← pathCount, hz]
      · simp [hp]
    · rw [pathCount, List.countP_cons_of_neg]
      · exact ih htail
      · simp [hp]

/-- C1: for every sequence of queue operations starting from the empty
queue, the resulting queue contains at most one entry per path. -/
theorem c1_at_most_one_entry_per_path (ops : List QueueOp) (p : String) :
    pathCount p (applyOps [] ops) ≤ 1 :=
  pathCount_le_one _ (applyOps_pathsDistinct ops [] (by simp [PathsDistinct])) p

/-- When no queued entry targets the new change's path, `addChange`
appends the new entry at the end (the `push` branch of the source). -/
theorem addChange_of_no_match (cs : List PendingChange) (c : ChangeInput) (now : Nat)
    (h : ∀ x ∈ cs, x.path ≠ c.path) :
    addChange cs c now = cs ++ [mkNewChange c now] := by
  induction cs with
  | nil =>
    rfl
  | cons e rest ih =>
    have he : e.path ≠ c.path := h e (List.mem_cons_self _ _)
    simp only [addChange]
    rw [if_neg he, ih (fun x hx => h x (List.mem_cons_of_mem _ hx))]
    rfl

/-- Entries whose path misses `p` are all dropped by the path filter. -/
theorem filter_path_eq_nil (cs : List PendingChange) (p : String)
    (h : ∀ x ∈ cs, x.path ≠ p) :
    cs.filter (fun x => x.path == p) = [] := by
  induction cs with
  | nil =>
    rfl
  | cons e rest ih =>
    rw [List.filter_cons_of_neg, ih (fun x hx => h x (List.mem_cons_of_mem _ hx))]
    simp [h e (List.mem_cons_self _ _)]

/-- Recording a `create` for a fresh path and then a `delete` for the same
path restores the queue exactly (the entry is removed, not replaced). -/
theorem addChange_create_then_delete (cs : List PendingChange)
    (c1 c2 : ChangeInput) (n1 n2 : Nat)
    (h0 : ∀ x ∈ cs, x.path ≠ c1.path)
    (hp : c2.path = c1.path)
    (ht1 : c1.type = ChangeType.create)
    (ht2 : c2.type = ChangeType.delete) :
    addChange (addChange cs c1 n1) c2 n2 = cs := by
  induction cs with
  | nil =>
    simp [addChange, mkNewChange, hp, ht1, ht2]
  | cons e rest ih =>
    have he : e.path ≠ c1.path := h0 e (List.mem_cons_self _ _)
    have he2 : e.path ≠ c2.path := by
      rw [hp]
      exact he
    simp only [addChange]
    rw [if_neg he]
    simp only [addChange]
    rw [if_neg he2, ih (fun x hx => h0 x (List.mem_cons_of_mem _ hx))]

/-- C2: for a path with no queued entry, recording `create` then `delete`
for that path leaves the queue with no entry for it. -/
theorem c2_create_then_delete_cancels (cs : List PendingChange)
    (c1 c2 : ChangeInput) (n1 n2 : Nat)
    (h0 : ∀ x ∈ cs, x.path ≠ c1.path)
    (hp : c2.path = c1.path)
    (ht1 : c1.type = ChangeType.create)
    (ht2 : c2.type = ChangeType.delete) :
    pathCount c1.path (addChange (addChange cs c1 n1) c2 n2) = 0 := by
  rw [addChange_create_then_delete cs c1 c2 n1 n2 h0 hp ht1 ht2]
  rw [pathCount, List.countP_eq_zero]
  intro b hb
  simp only [beq_iff_eq]
  exact h0 b hb

/-- Witness for C2 at a concrete input. -/
theorem c2_create_then_delete_cancels_witness :
    pathCount "posts/a.md"
      (addChange
        (addChange [] ⟨"posts/a.md", ChangeType.create, some "A", none, "new article"⟩ 1)
        ⟨"posts/a.md", ChangeType.delete, none, none, "drop article"⟩ 2) = 0 :=
  c2_create_then_delete_cancels []
    ⟨"posts/a.md", ChangeType.create, some "A", none, "new article"⟩
    ⟨"posts/a.md", ChangeType.delete, none, none, "drop article"⟩
    1 2 (by simp) rfl rfl rfl

/-- Recording a `create` for a fresh path and then an `update` for the same
path appends one merged entry that keeps kind `create` but carries the
second call's payload. -/
theorem addChange_create_then_update (cs : List PendingChange)
    (c1 c2 : ChangeInput) (n1 n2 : Nat)
    (h0 : ∀ x ∈ cs, x.path ≠ c1.path)
    (hp : c2.path = c1.path)
    (ht1 : c1.type = ChangeType.create)
    (ht2 : c2.type = ChangeType.update) :
    addChange (addChange cs c1 n1) c2 n2 =
      cs ++ [{ mkNewChange c2 n2 with type := ChangeType.create }] := by
  induction cs with
  | nil =>
    simp [addChange, mkNewChange, hp, ht1, ht2]
  | cons e rest ih =>
    have he : e.path ≠ c1.path := h0 e (List.mem_cons_self _ _)
    have he2 : e.path ≠ c2.path := by
      rw [hp]
      exact he
    simp only [addChange]
    rw [if_neg he]
    simp only [addChange]
    rw [if_neg he2, ih (fun x hx => h0 x (List.mem_cons_of_mem _ hx))]
    rfl

/-- C3: for a path with no queued entry, recording `create` with one
payload then `update` with another leaves exactly one entry for that
path, of kind `create`, carrying the second call's content and
description. -/
theorem c3_create_then_update_stays_create (cs : List PendingChange)
    (c1 c2 : ChangeInput) (n1 n2 : Nat)
    (h0 : ∀ x ∈ cs, x.path ≠ c1.path)
    (hp : c2.path = c1.path)
    (ht1 : c1.type = ChangeType.create)
    (ht2 : c2.type = ChangeType.update) :
    (addChange (addChange cs c1 n1) c2 n2).filter (fun x => x.path == c1.path) =
      [{ mkNewChange c2 n2 with type := ChangeType.create }] := by
  rw [addChange_create_then_update cs c1 c2 n1 n2 h0 hp ht1 ht2]
  rw [List.filter_append, filter_path_eq_nil cs c1.path h0]
  simp [mkNewChange, hp]

/-- Witness for C3 at a concrete input. -/
theorem c3_create_then_update_stays_create_witness :
    (addChange
        (addChange [] ⟨"posts/a.md", ChangeType.create, some "A", none, "new article"⟩ 1)
        ⟨"posts/a.md", ChangeType.update, some "B", none, "edit article"⟩ 2).filter
        (fun x => x.path == "posts/a.md") =
      [{ id := "posts/a.md-2", path := "posts/a.md", type := ChangeType.create,
         content := some "B", sha := none, description := "edit article", timestamp := 2 }] :=
  c3_create_then_update_stays_create []
    ⟨"posts/a.md", ChangeType.create, some "A", none, "new article"⟩
    ⟨"posts/a.md", ChangeType.update, some "B", none, "edit article"⟩
    1 2 (by simp) rfl rfl rfl

/-- C4: when an entry for the path exists and the pair of kinds is not one
of the two special cases, `addChange` replaces the entry entirely: the
only entry left for that path is the freshly built one (new kind,
content, sha, description, fresh id and timestamp). -/
theorem c4_default_replaces_entry (cs : List PendingChange)
    (e : PendingChange) (c : ChangeInput) (now : Nat)
    (hd : PathsDistinct cs)
    (he : e ∈ cs)
    (hpath : e.path = c.path)
    (hnotCD : ¬(e.type = ChangeType.create ∧ c.type = ChangeType.delete))
    (hnotCU : ¬(e.type = ChangeType.create ∧ c.type = ChangeType.update)) :
    (addChange cs c now).filter (fun x => x.path == c.path) = [mkNewChange c now] := by
  induction cs with
  | nil =>
    cases he
  | cons a rest ih =>
    rcases List.pairwise_cons.mp hd with ⟨hhead, htail⟩
    by_cases ha : a.path = c.path
    · have hea : e = a := by
        rcases List.mem_cons.mp he with h | h
        · exact h
        · exact absurd (hpath.trans ha.symm).symm (hhead e h)
      subst hea
      simp only [addChange]
      rw [if_pos ha, if_neg hnotCD, if_neg hnotCU]
      rw [List.filter_cons_of_pos]
      · rw [filter_path_eq_nil rest c.path
          (fun x hx => fun hxp => hhead x hx (ha.trans hxp.symm))]
      · simp [mkNewChange]
    · have her : e ∈ rest := by
        rcases List.mem_cons.mp he with h | h
        · exact absurd (h ▸ hpath) ha
        · exact h
      simp only [addChange]
      rw [if_neg ha, List.filter_cons_of_neg, ih htail her]
      simp [ha]

/-- Witness for C4 at a concrete input (two `update`s in a row). -/
theorem c4_default_replaces_entry_witness :
    (addChange
        [{ id := "data/todos.json-1", path := "data/todos.json", type := ChangeType.update,
           content := some "A", sha := some "s1", description := "edit todos", timestamp := 1 }]
        ⟨"data/todos.json", ChangeType.update, some "B", some "s2", "edit todos again"⟩ 2).filter
        (fun x => x.path == "data/todos.json") =
      [{ id := "data/todos.json-2", path := "data/todos.json", type := ChangeType.update,
         content := some "B", sha := some "s2", description := "edit todos again", timestamp := 2 }] :=
  c4_default_replaces_entry
    [{ id := "data/todos.json-1", path := "data/todos.json", type := ChangeType.update,
       content := some "A", sha := some "s1", description := "edit todos", timestamp := 1 }]
    { id := "data/todos.json-1", path := "data/todos.json", type := ChangeType.update,
      content := some "A", sha := some "s1", description := "edit todos", timestamp := 1 }
    ⟨"data/todos.json", ChangeType.update, some "B", some "s2", "edit todos again"⟩
    2 (by simp [PathsDistinct]) (List.mem_singleton.mpr rfl)
    rfl (by simp) (by simp)

/-!
Remote content client transport encoding, from `src/api/github.ts`.
`saveFile` (lines 164–166) encodes content with `TextEncoder` (UTF-8
bytes) followed by `btoa` (base64); `getFileContent` (lines 131–138)
strips newlines from the transport base64, applies `atob`, collects the
byte values and decodes them with `TextDecoder("utf-8")`.  The platform
primitives `TextEncoder`/`TextDecoder`/`btoa`/`atob` are modelled below;
bytes are `Nat` values below 256 and code points are `Nat` scalar
values. -/

/-- Base64 digit for a sextet value: the standard alphabet used by
`btoa` (`A`–`Z`, `a`–`z`, `0`–`9`, `+`, `/`). -/
def b64Char (n : Nat) : Char :=
  if n < 26 then Char.ofNat (65 + n)
  else if n < 52 then Char.ofNat (97 + (n - 26))
  else if n < 62 then Char.ofNat (48 + (n - 52))
  else if n = 62 then '+'
  else '/'

/-- Inverse base64 digit lookup used by the `atob` model. -/
def b64Val (c : Char) : Option Nat :=
  if 65 ≤ c.toNat ∧ c.toNat ≤ 90 then some (c.toNat - 65)
  else if 97 ≤ c.toNat ∧ c.toNat ≤ 122 then some (c.toNat - 97 + 26)
  else if 48 ≤ c.toNat ∧ c.toNat ≤ 57 then some (c.toNat - 48 + 52)
  else if c = '+' then some 62
  else if c = '/' then some 63
  else none

/-- `btoa` model: bytes to base64 text, three bytes to four digits, with
`=` padding for a final group of one or two bytes. -/
def base64Encode : List Nat → List Char
  | [] => []
  | [b1] =>
    [b64Char (b1 / 4), b64Char (b1 % 4 * 16), '=', '=']
  | [b1, b2] =>
    [b64Char (b1 / 4), b64Char (b1 % 4 * 16 + b2 / 16), b64Char (b2 % 16 * 4), '=']
  | b1 :: b2 :: b3 :: rest =>
    b64Char (b1 / 4) :: b64Char (b1 % 4 * 16 + b2 / 16) ::
      b64Char (b2 % 16 * 4 + b3 / 64) :: b64Char (b3 % 64) :: base64Encode rest

/-- `atob` model: base64 text to bytes, four digits at a time, accepting
`=` padding only at the end; anything else is rejected (`atob` throws). -/
def base64Decode : List Char → Option (List Nat)
  | [] => some []
  | c1 :: c2 :: c3 :: c4 :: rest =>
    match b64Val c1, b64Val c2, b64Val c3, b64Val c4 with
    | some v1, some v2, some v3, some v4 =>
      (base64Decode rest).map
        (fun bs => (v1 * 4 + v2 / 16) :: (v2 % 16 * 16 + v3 / 4) :: (v3 % 4 * 64 + v4) :: bs)
    | some v1, some v2, some v3, none =>
      if c4 = '=' ∧ rest = [] then some [v1 * 4 + v2 / 16, v2 % 16 * 16 + v3 / 4]
      else none
    | some v1, some v2, none, none =>
      if c3 = '=' ∧ c4 = '=' ∧ rest = [] then some [v1 * 4 + v2 / 16]
      else none
    | _, _, _, _ => none
  | _ => none

/-- `TextEncoder` model for one scalar value: its UTF-8 byte sequence. -/
def utf8EncodeChar (n : Nat) : List Nat :=
  if n < 128 then [n]
  else if n < 2048 then [192 + n / 64, 128 + n % 64]
  else if n < 65536 then [224 + n / 4096, 128 + n / 64 % 64, 128 + n % 64]
  else [240 + n / 262144, 128 + n / 4096 % 64, 128 + n / 64 % 64, 128 + n % 64]

/-- `TextEncoder` model: UTF-8 bytes of a sequence of scalar values. -/
def utf8Encode : List Nat → List Nat
  | [] => []
  | n :: rest => utf8EncodeChar n ++ utf8Encode rest

/-- `TextDecoder("utf-8")` model: bytes back to scalar values, rejecting
malformed sequences (overlong forms, surrogates, out-of-range leads).
The browser decoder substitutes U+FFFD where this model returns `none`;
both agree on the well-formed output of `utf8Encode`. -/
def utf8Decode : List Nat → Option (List Nat)
  | [] => some []
  | b1 :: rest =>
    if b1 < 128 then
      (utf8Decode rest).map (fun l => b1 :: l)
    else if b1 < 194 then
      none
    else
      match rest with
      | [] => none
      | b2 :: rest2 =>
        if ¬(128 ≤ b2 ∧ b2 < 192) then none
        else if b1 < 224 then
          (utf8Decode rest2).map (fun l => ((b1 - 192) * 64 + (b2 - 128)) :: l)
        else
          match rest2 with
          | [] => none
          | b3 :: rest3 =>
            if ¬(128 ≤ b3 ∧ b3 < 192) then none
            else if b1 < 240 then
              let cp := (b1 - 224) * 4096 + (b2 - 128) * 64 + (b3 - 128)
              if 2048 ≤ cp ∧ ¬(55296 ≤ cp ∧ cp < 57344) then
                (utf8Decode rest3).map (fun l => cp :: l)
              else none
            else
              match rest3 with
              | [] => none
              | b4 :: rest4 =>
                if ¬(128 ≤ b4 ∧ b4 < 192) then none
                else if b1 < 245 then
                  let cp := (b1 - 240) * 262144 + (b2 - 128) * 4096 +
                    (b3 - 128) * 64 + (b4 - 128)
                  if 65536 ≤ cp ∧ cp < 1114112 then
                    (utf8Decode rest4).map (fun l => cp :: l)
                  else none
                else none

/-- A Unicode scalar value: what a Lean `Char` (and a decoded JS string
position) can hold. -/
def ValidScalar (n : Nat) : Prop :=
  n < 55296 ∨ (57344 ≤ n ∧ n < 1114112)

/-- The base64 transport form `saveFile` sends (github.ts lines 164–166):
UTF-8 bytes of the content, base64-encoded. -/
def encodeContent (s : String) : List Char :=
  base64Encode (utf8Encode (s.data.map Char.toNat))

/-- The decoding `getFileContent` applies to the transport form
(github.ts lines 131–138): strip newlines, `atob`, collect byte values,
decode as UTF-8. -/
def decodeContent (t : List Char) : Option String :=
  match base64Decode (t.filter (fun c => c != '\n')) with
  | none => none
  | some bytes =>
    match utf8Decode bytes with
    | none => none
    | some cps => some (String.mk (cps.map Char.ofNat))

/-- Decoding a base64 digit returns the sextet it encodes. -/
theorem b64Val_b64Char : ∀ n : Nat, n < 64 → b64Val (b64Char n) = some n := by
  decide

/-- The padding character is not a base64 digit. -/
theorem b64Val_pad : b64Val '=' = none := by
  decide

/-- The `atob` model inverts the `btoa` model on byte lists. -/
theorem base64_roundtrip (bs : List Nat) (h : ∀ b ∈ bs, b < 256) :
    base64Decode (base64Encode bs) = some bs := by
  induction bs using base64Encode.induct with
  | case1 =>
    rfl
  | case2 b1 =>
    have hb1 : b1 < 256 := h b1 (by simp)
    simp only [base64Encode, base64Decode]
    rw [b64Val_b64Char (b1 / 4) (by omega), b64Val_b64Char (b1 % 4 * 16) (by omega)]
    simp only [b64Val_pad]
    rw [if_pos (by simp)]
    simp only [Option.some.injEq, List.cons.injEq, and_true]
    omega
  | case3 b1 b2 =>
    have hb1 : b1 < 256 := h b1 (by simp)
    have hb2 : b2 < 256 := h b2 (by simp)
    simp only [base64Encode, base64Decode]
    rw [b64Val_b64Char (b1 / 4) (by omega),
      b64Val_b64Char (b1 % 4 * 16 + b2 / 16) (by omega),
      b64Val_b64Char (b2 % 16 * 4) (by omega)]
    simp only [b64Val_pad]
    rw [if_pos (by simp)]
    simp only [Option.some.injEq, List.cons.injEq, and_true]
    constructor
    · omega
    · omega
  | case4 b1 b2 b3 rest ih =>
    have hb1 : b1 < 256 := h b1 (by simp)
    have hb2 : b2 < 256 := h b2 (by simp)
    have hb3 : b3 < 256 := h b3 (by simp)
    have hrest : ∀ b ∈ rest, b < 256 := by
      intro b hb
      exact h b (by simp [hb])
    simp only [base64Encode, base64Decode]
    rw [b64Val_b64Char (b1 / 4) (by omega),
      b64Val_b64Char (b1 % 4 * 16 + b2 / 16) (by omega),
      b64Val_b64Char (b2 % 16 * 4 + b3 / 64) (by omega),
      b64Val_b64Char (b3 % 64) (by omega)]
    rw [ih hrest]
    simp only [Option.map_some', Option.some.injEq, List.cons.injEq]
    refine ⟨by omega, by omega, by omega, trivial⟩

/-- Decoding the UTF-8 bytes of one valid scalar value followed by any
byte tail decodes the scalar and continues with the tail. -/
theorem utf8Decode_encodeChar_append (n : Nat) (h : ValidScalar n) (bs : List Nat) :
    utf8Decode (utf8EncodeChar n ++ bs) = (utf8Decode bs).map (fun l => n :: l) := by
  rcases h with h | h
  · by_cases h1 : n < 128
    · simp only [utf8EncodeChar, if_pos h1, List.cons_append, List.nil_append]
      rw [utf8Decode.eq_def]
      dsimp only
      rw [if_pos h1]
    · by_cases h2 : n < 2048
      · simp only [utf8EncodeChar, if_neg h1, if_pos h2, List.cons_append, List.nil_append]
        rw [utf8Decode.eq_def]
        dsimp only
        have ga : ¬192 + n / 64 < 128 := by omega
        have gb : ¬192 + n / 64 < 194 := by omega
        have gc : ¬¬(128 ≤ 128 + n % 64 ∧ 128 + n % 64 < 192) := by omega
        have gd : 192 + n / 64 < 224 := by omega
        rw [if_neg ga, if_neg gb, if_neg gc, if_pos gd]
        have harg : (192 + n / 64 - 192) * 64 + (128 + n % 64 - 128) = n := by omega
        rw [harg]
      · simp only [utf8EncodeChar, if_neg h1, if_neg h2, if_pos (show n < 65536 by omega),
          List.cons_append, List.nil_append]
        rw [utf8Decode.eq_def]
        dsimp only
        have ga : ¬224 + n / 4096 < 128 := by omega
        have gb : ¬224 + n / 4096 < 194 := by omega
        have gc : ¬¬(128 ≤ 128 + n / 64 % 64 ∧ 128 + n / 64 % 64 < 192) := by omega
        have gd : ¬224 + n / 4096 < 224 := by omega
        have ge : ¬¬(128 ≤ 128 + n % 64 ∧ 128 + n % 64 < 192) := by omega
        have gf : 224 + n / 4096 < 240 := by omega
        rw [if_neg ga, if_neg gb, if_neg gc, if_neg gd, if_neg ge, if_pos gf]
        have harg : (224 + n / 4096 - 224) * 4096 + (128 + n / 64 % 64 - 128) * 64 +
            (128 + n % 64 - 128) = n := by omega
        rw [harg, if_pos (by omega)]
  · by_cases h3 : n < 65536
    · simp only [utf8EncodeChar, if_neg (show ¬n < 128 by omega),
        if_neg (show ¬n < 2048 by omega), if_pos h3, List.cons_append, List.nil_append]
      rw [utf8Decode.eq_def]
      dsimp only
      have ga : ¬224 + n / 4096 < 128 := by omega
      have gb : ¬224 + n / 4096 < 194 := by omega
      have gc : ¬¬(128 ≤ 128 + n / 64 % 64 ∧ 128 + n / 64 % 64 < 192) := by omega
      have gd : ¬224 + n / 4096 < 224 := by omega
      have ge : ¬¬(128 ≤ 128 + n % 64 ∧ 128 + n % 64 < 192) := by omega
      have gf : 224 + n / 4096 < 240 := by omega
      rw [if_neg ga, if_neg gb, if_neg gc, if_neg gd, if_neg ge, if_pos gf]
      have harg : (224 + n / 4096 - 224) * 4096 + (128 + n / 64 % 64 - 128) * 64 +
          (128 + n % 64 - 128) = n := by omega
      rw [harg, if_pos (by omega)]
    · simp only [utf8EncodeChar, if_neg (show ¬n < 128 by omega),
        if_neg (show ¬n < 2048 by omega), if_neg h3, List.cons_append, List.nil_append]
      rw [utf8Decode.eq_def]
      dsimp only
      have ga : ¬240 + n / 262144 < 128 := by omega
      have gb : ¬240 + n / 262144 < 194 := by omega
      have gc : ¬¬(128 ≤ 128 + n / 4096 % 64 ∧ 128 + n / 4096 % 64 < 192) := by omega
      have gd : ¬240 + n / 262144 < 224 := by omega
      have ge : ¬¬(128 ≤ 128 + n / 64 % 64 ∧ 128 + n / 64 % 64 < 192) := by omega
      have gf : ¬240 + n / 262144 < 240 := by omega
      have gg : ¬¬(128 ≤ 128 + n % 64 ∧ 128 + n % 64 < 192) := by omega
      have gh : 240 + n / 262144 < 245 := by omega
      rw [if_neg ga, if_neg gb, if_neg gc, if_neg gd, if_neg ge, if_neg gf, if_neg gg,
        if_pos gh]
      have harg : (240 + n / 262144 - 240) * 262144 + (128 + n / 4096 % 64 - 128) * 4096 +
          (128 + n / 64 % 64 - 128) * 64 + (128 + n % 64 - 128) = n := by omega
      rw [harg, if_pos (by omega)]

/-- The `TextDecoder` model inverts the `TextEncoder` model on sequences
of valid scalar values. -/
theorem utf8_roundtrip (cps : List Nat) (h : ∀ n ∈ cps, ValidScalar n) :
    utf8Decode (utf8Encode cps) = some cps := by
  induction cps with
  | nil =>
    rfl
  | cons n rest ih =>
    have hn : ValidScalar n := h n (List.mem_cons_self _ _)
    simp only [utf8Encode]
    rw [utf8Decode_encodeChar_append n hn,
      ih (fun m hm => h m (List.mem_cons_of_mem _ hm))]
    rfl

/-- UTF-8 encoding of in-range scalar values produces bytes below 256. -/
theorem utf8Encode_lt_256 (cps : List Nat) (h : ∀ n ∈ cps, n < 1114112) :
    ∀ b ∈ utf8Encode cps, b < 256 := by
  induction cps with
  | nil =>
    intro b hb
    simp [utf8Encode] at hb
  | cons n rest ih =>
    intro b hb
    simp only [utf8Encode, List.mem_append] at hb
    rcases hb with hb | hb
    · have hn : n < 1114112 := h n (List.mem_cons_self _ _)
      simp only [utf8EncodeChar] at hb
      split_ifs at hb <;> simp only [List.mem_cons, List.not_mem_nil, or_false] at hb <;> omega
    · exact ih (fun m hm => h m (List.mem_cons_of_mem _ hm)) b hb

/-- No base64 digit is a newline. -/
theorem b64Char_ne_newline : ∀ n : Nat, n < 64 → b64Char n ≠ '\n' := by
  decide

/-- The base64 transport text contains no newline, so the newline strip
in `getFileContent` is the identity on it. -/
theorem base64Encode_no_newline (bs : List Nat) (h : ∀ b ∈ bs, b < 256) :
    ∀ c ∈ base64Encode bs, c ≠ '\n' := by
  induction bs using base64Encode.induct with
  | case1 =>
    intro c hc
    simp [base64Encode] at hc
  | case2 b1 =>
    intro c hc
    have hb1 : b1 < 256 := h b1 (by simp)
    simp only [base64Encode, List.mem_cons, List.not_mem_nil, or_false] at hc
    rcases hc with rfl | rfl | rfl | rfl
    · exact b64Char_ne_newline _ (by omega)
    · exact b64Char_ne_newline _ (by omega)
    · decide
    · decide
  | case3 b1 b2 =>
    intro c hc
    have hb1 : b1 < 256 := h b1 (by simp)
    have hb2 : b2 < 256 := h b2 (by simp)
    simp only [base64Encode, List.mem_cons, List.not_mem_nil, or_false] at hc
    rcases hc with rfl | rfl | rfl | rfl
    · exact b64Char_ne_newline _ (by omega)
    · exact b64Char_ne_newline _ (by omega)
    · exact b64Char_ne_newline _ (by omega)
    · decide
  | case4 b1 b2 b3 rest ih =>
    intro c hc
    have hb1 : b1 < 256 := h b1 (by simp)
    have hb2 : b2 < 256 := h b2 (by simp)
    have hb3 : b3 < 256 := h b3 (by simp)
    simp only [base64Encode, List.mem_cons] at hc
    rcases hc with rfl | rfl | rfl | rfl | hc
    · exact b64Char_ne_newline _ (by omega)
    · exact b64Char_ne_newline _ (by omega)
    · exact b64Char_ne_newline _ (by omega)
    · exact b64Char_ne_newline _ (by omega)
    · exact ih (fun b hb => h b (by simp [hb])) c hc

/-- Stripping newlines from the transport text is a no-op. -/
theorem filter_newline_base64 (bs : List Nat) (h : ∀ b ∈ bs, b < 256) :
    (base64Encode bs).filter (fun c => c != '\n') = base64Encode bs := by
  rw [List.filter_eq_self]
  intro c hc
  simpa using base64Encode_no_newline bs h c hc

/-- C8: decoding the transport form produced by `saveFile` with the
decoding applied by `getFileContent` returns the original text exactly,
for every string, non-ASCII text included. -/
theorem c8_content_roundtrip (s : String) : decodeContent (encodeContent s) = some s := by
  have hvalid : ∀ n ∈ s.data.map Char.toNat, ValidScalar n := by
    intro n hn
    simp only [List.mem_map] at hn
    rcases hn with ⟨c, _, rfl⟩
    rcases c.valid with h | h
    · left
      exact h
    · right
      exact h
  have hlt : ∀ n ∈ s.data.map Char.toNat, n < 1114112 := by
    intro n hn
    rcases hvalid n hn with h | h
    · omega
    · omega
  rw [decodeContent, encodeContent]
  rw [filter_newline_base64 _ (utf8Encode_lt_256 _ hlt)]
  rw [base64_roundtrip _ (utf8Encode_lt_256 _ hlt)]
  dsimp only
  rw [utf8_roundtrip _ hvalid]
  dsimp only
  rw [List.map_map]
  simp only [Function.comp_def, Char.ofNat_toNat, List.map_id_fun, id_eq, List.map_id_fun']

/-- The request body `saveFile` passes to
`repos.createOrUpdateFileContents` (github.ts lines 168–176). -/
structure SaveRequest where
  owner : String
  repo : String
  path : String
  message : String
  content : List Char
  branch : String
  sha : Option String
deriving DecidableEq, Repr

/-- `saveFile` request construction (github.ts lines 156–179): content
is UTF-8 plus base64 encoded, and the spread `...(sha && \x7b sha \x7d)`
includes the `sha` field only when the `sha` argument is a truthy
string, that is, present and non-empty. -/
def saveFileRequest (owner repo branch path content message : String)
    (sha : Option String) : SaveRequest :=
  { owner := owner
    repo := repo
    path := path
    message := message
    content := encodeContent content
    branch := branch
    sha :=
      match sha with
      | none => none
      | some s => if s = "" then none else some s }

/-- C9: passing an empty-string revision token to `saveFile` builds the
same request as passing no token at all, and that request carries no
`sha` field, so it is an unconditional create. -/
theorem c9_empty_sha_means_create (owner repo branch path content message : String) :
    saveFileRequest owner repo branch path content message (some "") =
        saveFileRequest owner repo branch path content message none ∧
      (saveFileRequest owner repo branch path content message (some "")).sha = none := by
  constructor
  · simp [saveFileRequest]
  · simp [saveFileRequest]

/-!
Batch commit, from `src/components/common/CommitModal.vue`
(`commitChanges`, lines 68–119).  The modal validates the message and
the queue, maps the queue entries to plain objects, calls
`githubAPI.batchCommit(changes, message.trim())`, and on
`result.success` clears the queue and reports the committed count
(`changes.length`); on failure it surfaces `result.error` and leaves
the queue untouched.  Remote behaviour is abstracted as a function from
a change payload to success or an error message. -/

/-- ASCII whitespace for the `trim` model. -/
def isWs (c : Char) : Bool := c = ' ' ∨ c = '\t' ∨ c = '\n' ∨ c = '\r'

/-- Model of the JS `String.prototype.trim` used on the commit message
(CommitModal lines 69 and 98): strip leading and trailing whitespace.
Defined over the character list so that it computes by kernel
reduction. -/
def jsTrim (s : String) : String :=
  String.mk (((s.data.dropWhile isWs).reverse.dropWhile isWs).reverse)

/-- The plain per-entry payload CommitModal builds before calling
`batchCommit` (CommitModal.vue lines 91–96). -/
structure SimpleChange where
  path : String
  type : ChangeType
  content : Option String
  sha : Option String
deriving DecidableEq, Repr

/-- The mapping `(c) => (\x7b path, type, content, sha \x7d)` of
CommitModal.vue lines 91–96. -/
def toSimple (c : PendingChange) : SimpleChange :=
  { path := c.path, type := c.type, content := c.content, sha := c.sha }

/-- The result object CommitModal consumes: `result.success` and
`result.error`, plus the number of remote operations issued (for the
no-network precondition property). -/
structure BatchResult where
  success : Bool
  error : Option (String × String)
  callCount : Nat
deriving Repr

/-- First error over the batch, in queue order: each entry's remote
operation is dispatched and the first failing entry's path and message
are kept (spec §4.3 steps 2, 3 and 5). -/
def runBatchError (remote : SimpleChange → Except String Unit) :
    List SimpleChange → Option (String × String)
  | [] => none
  | c :: rest =>
    match remote c with
    | Except.ok _ => runBatchError remote rest
    | Except.error m => some (c.path, m)

/-- Modelled from the spec: `githubAPI.batchCommit` is called by
CommitModal.vue (line 98) but the method is absent from
`src/api/github.ts` in this snapshot, so it is modelled from spec §4.3:
precondition checks (`EmptyCommit` for an empty batch, `MissingMessage`
for a blank message) happen before any network call; otherwise one
remote operation is dispatched per entry and the operation reports
success, or failure with the first error encountered, attributable to a
path.  The function receives the mapped plain objects and returns a
result object; the pending-changes queue itself is owned and mutated
only by `commitChanges` in CommitModal.  The message argument arrives
already trimmed (CommitModal line 98), so blank means empty here. -/
def batchCommit (changes : List SimpleChange) (message : String)
    (remote : SimpleChange → Except String Unit) : BatchResult :=
  if changes.isEmpty then
    { success := false, error := some ("", "EmptyCommit"), callCount := 0 }
  else if message = "" then
    { success := false, error := some ("", "MissingMessage"), callCount := 0 }
  else
    let firstError := runBatchError remote changes
    { success := firstError.isNone, error := firstError, callCount := changes.length }

/-- The errors `commitChanges` can surface: the two local validation
messages (lines 69–77), the missing-token message (lines 79–82), and a
remote failure from `batchCommit`. -/
inductive CommitError where
  | missingMessage
  | emptyCommit
  | notLoggedIn
  | remoteFailure (path msg : String)
deriving DecidableEq, Repr

/-- Observable outcome of `commitChanges`: the queue afterwards, the
surfaced error if any, the reported committed count on success, and how
many remote operations were issued. -/
structure CommitOutcome where
  queue : List PendingChange
  error : Option CommitError
  successCount : Option Nat
  remoteCalls : Nat
deriving Repr

/-- `commitChanges` from CommitModal.vue (lines 68–119): blank message
check first (line 69), then empty queue (line 74), then missing token
(line 79); then `batchCommit` over the mapped entries with the trimmed
message; on `result.success` the queue is cleared and the count of
mapped changes reported, otherwise the queue is left untouched and
`result.error` surfaced. -/
def commitChanges (queue : List PendingChange) (message : String)
    (token : Option String) (remote : SimpleChange → Except String Unit) : CommitOutcome :=
  if jsTrim message = "" then
    { queue := queue, error := some CommitError.missingMessage,
      successCount := none, remoteCalls := 0 }
  else if queue.isEmpty then
    { queue := queue, error := some CommitError.emptyCommit,
      successCount := none, remoteCalls := 0 }
  else
    match token with
    | none =>
      { queue := queue, error := some CommitError.notLoggedIn,
        successCount := none, remoteCalls := 0 }
    | some _ =>
      let changes := queue.map toSimple
      let result := batchCommit changes (jsTrim message) remote
      if result.success then
        { queue := clearChanges queue, error := none,
          successCount := some changes.length, remoteCalls := result.callCount }
      else
        { queue := queue,
          error := some
            (match result.error with
            | some (p, m) => CommitError.remoteFailure p m
            | none => CommitError.remoteFailure "" ""),
          successCount := none, remoteCalls := result.callCount }

/-- A remote on which every operation succeeds. -/
def alwaysOk : SimpleChange → Except String Unit :=
  fun _ => Except.ok ()

/-- When every remote operation succeeds, the batch reports no error. -/
theorem runBatchError_eq_none (remote : SimpleChange → Except String Unit)
    (cs : List SimpleChange) (h : ∀ c ∈ cs, remote c = Except.ok ()) :
    runBatchError remote cs = none := by
  induction cs with
  | nil =>
    rfl
  | cons c rest ih =>
    simp only [runBatchError, h c (List.mem_cons_self _ _)]
    exact ih (fun d hd => h d (List.mem_cons_of_mem _ hd))

/-- C6: with a non-blank message, a token, and a non-empty queue of
distinct-path entries whose remote operations all succeed, the commit
empties the queue and reports `queue.length` committed changes. -/
theorem c6_full_success_drains_queue (queue : List PendingChange) (message tk : String)
    (remote : SimpleChange → Except String Unit)
    (hmsg : jsTrim message ≠ "")
    (hq : queue ≠ [])
    (hdistinct : PathsDistinct queue)
    (hok : ∀ c ∈ queue, remote (toSimple c) = Except.ok ()) :
    (commitChanges queue message (some tk) remote).queue = [] ∧
      (commitChanges queue message (some tk) remote).successCount = some queue.length := by
  have hempty : queue.isEmpty = false := by
    cases queue with
    | nil => exact absurd rfl hq
    | cons a t => rfl
  have hempty2 : (queue.map toSimple).isEmpty = false := by
    cases queue with
    | nil => exact absurd rfl hq
    | cons a t => rfl
  have hne : runBatchError remote (queue.map toSimple) = none := by
    apply runBatchError_eq_none
    intro c hc
    rcases List.mem_map.mp hc with ⟨d, hd, rfl⟩
    exact hok d hd
  unfold commitChanges
  rw [if_neg hmsg, hempty]
  simp only [Bool.false_eq_true, if_false]
  unfold batchCommit
  rw [hempty2]
  simp only [Bool.false_eq_true, if_false]
  rw [if_neg hmsg, hne]
  simp [clearChanges, List.length_map]

/-- Witness for C6 at a concrete input. -/
theorem c6_full_success_drains_queue_witness :
    (commitChanges
        [{ id := "data/a.json-1", path := "data/a.json", type := ChangeType.update,
           content := some "A", sha := some "shaA", description := "edit a", timestamp := 1 }]
        "update things" (some "tok") alwaysOk).queue = [] ∧
      (commitChanges
        [{ id := "data/a.json-1", path := "data/a.json", type := ChangeType.update,
           content := some "A", sha := some "shaA", description := "edit a", timestamp := 1 }]
        "update things" (some "tok") alwaysOk).successCount = some 1 :=
  c6_full_success_drains_queue
    [{ id := "data/a.json-1", path := "data/a.json", type := ChangeType.update,
       content := some "A", sha := some "shaA", description := "edit a", timestamp := 1 }]
    "update things" "tok" alwaysOk (by decide) (by simp) (by simp [PathsDistinct])
    (fun c _ => rfl)

/-- C7: with a blank message or an empty queue, `commitChanges` reports
the matching local validation error, leaves the queue unchanged, and
issues no remote operation; the message check comes first. -/
theorem c7_precondition_checks_no_network (queue : List PendingChange) (message : String)
    (token : Option String) (remote : SimpleChange → Except String Unit)
    (h : jsTrim message = "" ∨ queue = []) :
    (commitChanges queue message token remote).remoteCalls = 0 ∧
      (commitChanges queue message token remote).queue = queue ∧
      (commitChanges queue message token remote).error =
        some (if jsTrim message = "" then CommitError.missingMessage
          else CommitError.emptyCommit) := by
  by_cases hm : jsTrim message = ""
  · simp [commitChanges, hm]
  · rcases h with h | h
    · exact absurd h hm
    · subst h
      simp [commitChanges, hm]

/-- Witness for C7 at a concrete input (empty queue, non-blank message). -/
theorem c7_precondition_checks_no_network_witness :
    (commitChanges [] "fix" (some "tok") alwaysOk).remoteCalls = 0 ∧
      (commitChanges [] "fix" (some "tok") alwaysOk).queue = [] ∧
      (commitChanges [] "fix" (some "tok") alwaysOk).error =
        some (if jsTrim "fix" = "" then CommitError.missingMessage
          else CommitError.emptyCommit) :=
  c7_precondition_checks_no_network [] "fix" (some "tok") alwaysOk (Or.inr rfl)

/-- Sample queue entry for path `data/a.json`. -/
def entryA : PendingChange :=
  { id := "data/a.json-1", path := "data/a.json", type := ChangeType.update,
    content := some "A", sha := some "shaA", description := "edit a", timestamp := 1 }

/-- Sample queue entry for path `data/b.json`. -/
def entryB : PendingChange :=
  { id := "data/b.json-2", path := "data/b.json", type := ChangeType.update,
    content := some "B", sha := some "shaB", description := "edit b", timestamp := 2 }

/-- Sample queue entry for path `data/c.json`. -/
def entryC : PendingChange :=
  { id := "data/c.json-3", path := "data/c.json", type := ChangeType.update,
    content := some "C", sha := some "shaC", description := "edit c", timestamp := 3 }

/-- A remote that fails exactly on path `data/b.json`. -/
def remoteFailsB : SimpleChange → Except String Unit :=
  fun c => if c.path = "data/b.json" then Except.error "boom" else Except.ok ()

/-- C5 as stated is false on the code: when the remote write for the
middle entry fails and the neighbours succeed, `commitChanges` leaves
the whole queue in place — the succeeded entries for `data/a.json` and
`data/c.json` are still queued, so the queue does not contain exactly
the entry for the failing path. -/
theorem c5_succeeded_entries_not_removed :
    (commitChanges [entryA, entryB, entryC] "fix things" (some "tok") remoteFailsB).queue =
        [entryA, entryB, entryC] ∧
      pathCount "data/a.json"
        (commitChanges [entryA, entryB, entryC] "fix things" (some "tok") remoteFailsB).queue
        = 1 ∧
      pathCount "data/c.json"
        (commitChanges [entryA, entryB, entryC] "fix things" (some "tok") remoteFailsB).queue
        = 1 := by
  refine ⟨?_, ?_, ?_⟩
  · decide
  · decide
  · decide

/-- C5 amended: when one entry's remote operation fails while the others
succeed, the reported failure carries the failing entry's path and
message, but no entry is removed — the queue is left exactly as it was
(it is cleared only on full success). -/
theorem c5_partial_failure_keeps_queue (a b c : PendingChange) (message tk m : String)
    (remote : SimpleChange → Except String Unit)
    (hmsg : jsTrim message ≠ "")
    (ha : remote (toSimple a) = Except.ok ())
    (hb : remote (toSimple b) = Except.error m) :
    (commitChanges [a, b, c] message (some tk) remote).queue = [a, b, c] ∧
      (commitChanges [a, b, c] message (some tk) remote).error =
        some (CommitError.remoteFailure b.path m) := by
  unfold commitChanges
  rw [if_neg hmsg]
  simp only [List.isEmpty_cons, Bool.false_eq_true, if_false]
  unfold batchCommit
  simp only [List.map_cons, List.isEmpty_cons, Bool.false_eq_true, if_false]
  rw [if_neg hmsg]
  simp only [runBatchError, ha, hb]
  simp [toSimple]

/-- Witness for the amended C5 at a concrete input. -/
theorem c5_partial_failure_keeps_queue_witness :
    (commitChanges [entryA, entryB, entryC] "fix things" (some "tok") remoteFailsB).queue =
        [entryA, entryB, entryC] ∧
      (commitChanges [entryA, entryB, entryC] "fix things" (some "tok") remoteFailsB).error =
        some (CommitError.remoteFailure entryB.path "boom") :=
  c5_partial_failure_keeps_queue entryA entryB entryC "fix things" "tok" "boom"
    remoteFailsB (by decide) rfl rfl

/-!
Session store, from `src/stores/auth.ts`.  State: the in-memory token
and user, the token persisted in browser local storage under
`github_token`, plus the loading flag and error message.  `fetchUser`
(lines 39–70) returns early without a token; otherwise it performs the
network call, and on any thrown error (non-2xx response or network
failure) it records the message and calls `logout` (lines 72–76), which
nulls the token and user and removes the persisted token. -/

/-- The `User` shape kept by the auth store (auth.ts lines 4–9). -/
structure User where
  login : String
  avatar_url : String
  name : String
  html_url : String
deriving DecidableEq, Repr

/-- Observable state of the auth store plus the persisted token. -/
structure AuthState where
  token : Option String
  user : Option User
  storedToken : Option String
  loading : Bool
  error : Option String
deriving DecidableEq, Repr

/-- How the `fetch` of `https://api.github.com/user` can turn out: a
parsed user, a non-2xx response (the code throws `获取用户信息失败`),
or a rejected promise (network failure and the like), carrying the
thrown message. -/
inductive FetchOutcome where
  | success (u : User)
  | httpError
  | networkError (msg : String)
deriving DecidableEq, Repr

/-- `logout` from auth.ts (lines 72–76): null the token and user and
remove the persisted token. -/
def logout (s : AuthState) : AuthState :=
  { s with token := none, user := none, storedToken := none }

/-- `isAuthenticated` from auth.ts (line 19): the token is present. -/
def isAuthenticated (s : AuthState) : Bool :=
  s.token.isSome

/-- `fetchUser` from auth.ts (lines 39–70): early return without a
token; on success store the user; on any caught error record the
message and `logout`; `finally` clears the loading flag. -/
def fetchUser (s : AuthState) (r : FetchOutcome) : AuthState :=
  match s.token with
  | none => s
  | some _ =>
    match r with
    | FetchOutcome.success u =>
      { s with user := some u, error := none, loading := false }
    | FetchOutcome.httpError =>
      { logout { s with error := some "获取用户信息失败" } with loading := false }
    | FetchOutcome.networkError msg =>
      { logout { s with error := some msg } with loading := false }

/-- C10: whenever the identity fetch fails for any reason — non-2xx
response or network error alike — the store discards the credential:
token and user are null, the persisted token is removed, and
`isAuthenticated` is false. -/
theorem c10_fetch_failure_discards_credential (s : AuthState) (r : FetchOutcome)
    (htok : s.token.isSome = true)
    (hfail : ∀ u : User, r ≠ FetchOutcome.success u) :
    (fetchUser s r).token = none ∧ (fetchUser s r).user = none ∧
      (fetchUser s r).storedToken = none ∧ isAuthenticated (fetchUser s r) = false := by
  obtain ⟨t, ht⟩ := Option.isSome_iff_exists.mp htok
  cases r with
  | success u => exact absurd rfl (hfail u)
  | httpError => simp [fetchUser, ht, logout, isAuthenticated]
  | networkError msg => simp [fetchUser, ht, logout, isAuthenticated]

/-- Witness for C10 at a concrete input (a transient network error). -/
theorem c10_fetch_failure_discards_credential_witness :
    (fetchUser
        { token := some "tok", user := none, storedToken := some "tok",
          loading := false, error := none }
        (FetchOutcome.networkError "Failed to fetch")).token = none ∧
      (fetchUser
        { token := some "tok", user := none, storedToken := some "tok",
          loading := false, error := none }
        (FetchOutcome.networkError "Failed to fetch")).user = none ∧
      (fetchUser
        { token := some "tok", user := none, storedToken := some "tok",
          loading := false, error := none }
        (FetchOutcome.networkError "Failed to fetch")).storedToken = none ∧
      isAuthenticated
        (fetchUser
          { token := some "tok", user := none, storedToken := some "tok",
            loading := false, error := none }
          (FetchOutcome.networkError "Failed to fetch")) = false :=
  c10_fetch_failure_discards_credential
    { token := some "tok", user := none, storedToken := some "tok",
      loading := false, error := none }
    (FetchOutcome.networkError "Failed to fetch") rfl
    (fun u h => by cases h)

end NayukiAdmin
